import Mathlib

/-!
Shallow embedding of the flatbox asset/resource storage engine
(`crates/assets`): the slot-map–backed `AssetManager` with its handle,
lock and type-erasure behaviour, the type-keyed `Resources` registry,
the `BinarySerializer` persistence codec and the archive `load` routine
generated by `impl_save_load!`.

Modelling conventions:
- A Rust type used as an asset type parameter `A` is modelled by
  `AssetType`, a pair of a `TypeId`-style tag and the `type_name` string.
- A boxed `dyn Asset` value is a `DynAsset`: the tag of its concrete
  type plus a `Nat` payload standing for its bits.
- A `parking_lot::RwLock` state is a `CellLock` (reader count plus
  writer flag); `try_read` fails exactly when a writer holds the lock,
  `try_write` fails when a writer or any reader holds it.
- An `Arc<RwLock<Box<dyn Asset>>>` cell is a `Cell`; `extraRefs` counts
  the strong references other than the one held by the manager's map,
  so `Arc::into_inner` succeeds exactly when `extraRefs = 0`.
- The `slotmap::SlotMap` is modelled by a list of versioned slots:
  occupied slots carry odd versions, a freed slot's version is bumped
  by one, and reoccupying bumps it again, exactly the crate's
  generation discipline that makes stale keys miss forever.
-/

/-- A Rust asset type `A`: its `TypeId`-style identity tag and its
`std::any::type_name` string, which `WrongAssetType` reports. -/
structure AssetType where
  tag : Nat
  name : String
deriving DecidableEq

/-- A type-erased boxed asset value: the tag of its concrete type and a
numeric payload standing for the value's bits. -/
structure DynAsset where
  ty : Nat
  val : Nat
deriving DecidableEq

/-- The error enum of `crates/assets/src/error.rs` (the two wrapped
library errors carry only a message here). -/
inductive AssetError where
  | RonError (msg : String)
  | IoError (msg : String)
  | InvalidHandle
  | AssetBlocked
  | WrongAssetType (asset_type : String)
deriving DecidableEq

/-- State of one `parking_lot::RwLock`. -/
structure CellLock where
  readers : Nat
  writer : Bool
deriving DecidableEq

/-- `RwLock::try_read` succeeds unless a writer holds the lock. -/
def CellLock.tryRead (l : CellLock) : Bool :=
  !l.writer

/-- `RwLock::try_write` succeeds only when nobody holds the lock. -/
def CellLock.tryWrite (l : CellLock) : Bool :=
  !l.writer && l.readers == 0

/-- An `Arc<RwLock<Box<dyn Asset>>>` storage cell: its lock state, the
number of strong references besides the map's own, and the boxed
value. -/
structure Cell where
  lock : CellLock
  extraRefs : Nat
  data : DynAsset
deriving DecidableEq

/-- A cell as `AssetManager::insert` creates it: unlocked, uniquely
referenced. -/
def freshCell (a : DynAsset) : Cell :=
  ⟨⟨0, false⟩, 0, a⟩

/-- One slot of the `SlotMap`: its version counter and its occupant. -/
structure Slot where
  version : Nat
  cell : Option Cell
deriving DecidableEq

/-- `AssetHandle`, a `slotmap` key: slot index plus generation. -/
structure AssetHandle where
  idx : Nat
  version : Nat
deriving DecidableEq

/-- `AssetManager`: the `SlotMap<AssetHandle, Arc<RwLock<Box<dyn Asset>>>>`
cache. -/
structure AssetManager where
  slots : List Slot
deriving DecidableEq

/-- `AssetManager::new()`. -/
def AssetManager.new : AssetManager :=
  ⟨[]⟩

/-- First vacant slot of the slot list, with its contents: the slot the
`SlotMap` reuses on the next insertion. -/
def findVacant : List Slot → Option (Nat × Slot)
  | [] => none
  | s :: rest =>
    if s.cell.isNone then some (0, s)
    else (findVacant rest).map (fun p => (p.1 + 1, p.2))

/-- `self.cache.get(handle)` / `get_mut(handle)`: the cell stored under
the key, provided the slot exists, its generation matches and it is
occupied. -/
def AssetManager.slotGet (m : AssetManager) (h : AssetHandle) : Option Cell :=
  match m.slots[h.idx]? with
  | none => none
  | some s => if s.version = h.version then s.cell else none

/-- `AssetManager::insert`: box the value in a fresh unlocked cell and
insert it into the slot map, reusing the first vacant slot (bumping its
version to the next odd generation) or appending a new slot at
generation 1; returns the new state and the fresh handle. -/
def AssetManager.insert (m : AssetManager) (a : DynAsset) :
    AssetManager × AssetHandle :=
  match findVacant m.slots with
  | some p =>
    (⟨m.slots.set p.1 ⟨p.2.version + 1, some (freshCell a)⟩⟩,
      ⟨p.1, p.2.version + 1⟩)
  | none =>
    (⟨m.slots ++ [⟨1, some (freshCell a)⟩]⟩, ⟨m.slots.length, 1⟩)

/-- `AssetManager::get::<A>`: look the cell up, `try_read` it, then
downcast to `A`; the three failures in the source's order. The `.ok`
value is what the returned read guard dereferences to. -/
def AssetManager.get (m : AssetManager) (A : AssetType) (h : AssetHandle) :
    Except AssetError DynAsset :=
  match m.slotGet h with
  | some c =>
    if c.lock.tryRead then
      if c.data.ty = A.tag then .ok c.data
      else .error (.WrongAssetType A.name)
    else .error .AssetBlocked
  | none => .error .InvalidHandle

/-- `AssetManager::get_mut::<A>`: same as `get` with `try_write` in
place of `try_read`. -/
def AssetManager.get_mut (m : AssetManager) (A : AssetType) (h : AssetHandle) :
    Except AssetError DynAsset :=
  match m.slotGet h with
  | some c =>
    if c.lock.tryWrite then
      if c.data.ty = A.tag then .ok c.data
      else .error (.WrongAssetType A.name)
    else .error .AssetBlocked
  | none => .error .InvalidHandle

/-- Modelled from the spec: `get_dynamic(handle)` appears in the spec's
AssetStore interface but is absent from the source tree; per the spec it
is the same as `get` without the type check/downcast. -/
def AssetManager.get_dynamic (m : AssetManager) (h : AssetHandle) :
    Except AssetError DynAsset :=
  match m.slotGet h with
  | some c =>
    if c.lock.tryRead then .ok c.data
    else .error .AssetBlocked
  | none => .error .InvalidHandle

/-- `self.cache.remove(handle)`: detach and return the cell if the key
is live, bumping the slot's version to mark it vacant. -/
def AssetManager.slotRemove (m : AssetManager) (h : AssetHandle) :
    Option (Cell × AssetManager) :=
  match m.slots[h.idx]? with
  | none => none
  | some s =>
    if s.version = h.version then
      s.cell.map (fun c =>
        (c, ⟨m.slots.set h.idx ⟨s.version + 1, none⟩⟩))
    else none

/-- Everything `AssetManager::remove` produces: the `Option<A>` result,
the post-state of the map, and the contents of the detached box at the
moment `remove` itself drops it (`none` when no box is dropped by
`remove`, i.e. when the key was dead or other `Arc` references keep the
cell alive). -/
structure RemoveResult where
  result : Option DynAsset
  mgr : AssetManager
  droppedBox : Option DynAsset
deriving DecidableEq

/-- `AssetManager::remove::<A>`: `cache.remove(handle)` first (so the
entry leaves the map whenever the key is live), then `Arc::into_inner`
(succeeds only with no extra references), then downcast to `A`; on
success a `std::mem::zeroed()` dummy of type `A` is swapped with the
boxed value, the original is returned and the box is dropped holding
the zero-bit value. -/
def AssetManager.remove (m : AssetManager) (A : AssetType) (h : AssetHandle) :
    RemoveResult :=
  match m.slotRemove h with
  | none => ⟨none, m, none⟩
  | some (c, m2) =>
    if c.extraRefs = 0 then
      if c.data.ty = A.tag then
        ⟨some c.data, m2, some ⟨A.tag, 0⟩⟩
      else
        ⟨none, m2, some c.data⟩
    else
      ⟨none, m2, none⟩

/-- One manager-level operation, for reasoning about operation
sequences. -/
inductive Op where
  | ins (a : DynAsset)
  | rem (A : AssetType) (h : AssetHandle)

/-- Apply one operation to the manager. -/
def AssetManager.applyOp (m : AssetManager) : Op → AssetManager
  | .ins a => (m.insert a).1
  | .rem A h => (m.remove A h).mgr

/-- Run a sequence of operations. -/
def AssetManager.run (m : AssetManager) : List Op → AssetManager
  | [] => m
  | op :: ops => (m.applyOp op).run ops

/-! ### The `Resources` registry (`crates/assets/src/resources.rs`) -/

/-- One `Arc<RwLock<dyn Resource>>` cell of the registry. -/
structure ResCell where
  lock : CellLock
  data : DynAsset
deriving DecidableEq

/-- `HashMap::insert` on an association list keyed by `TypeId` tag:
replaces the entry for the key if present, otherwise appends it. -/
def insertAssoc (k : Nat) (v : ResCell) :
    List (Nat × ResCell) → List (Nat × ResCell)
  | [] => [(k, v)]
  | (k2, v2) :: rest =>
    if k2 = k then (k, v) :: rest else (k2, v2) :: insertAssoc k v rest

/-- `HashMap::get` on the association list. -/
def lookupAssoc (k : Nat) : List (Nat × ResCell) → Option ResCell
  | [] => none
  | (k2, v2) :: rest => if k2 = k then some v2 else lookupAssoc k rest

/-- `Resources`: the `HashMap<TypeId, Arc<RwLock<dyn Resource>>>`. -/
structure Resources where
  res : List (Nat × ResCell)
deriving DecidableEq

/-- `Resources::new()`. -/
def Resources.new : Resources :=
  ⟨[]⟩

/-- `Resources::add_resource::<R>`: a plain
`self.res.insert(TypeId::of::<R>(), Arc::new(RwLock::new(resource)))`. -/
def Resources.add_resource (r : Resources) (R : AssetType) (v : Nat) :
    Resources :=
  ⟨insertAssoc R.tag ⟨⟨0, false⟩, ⟨R.tag, v⟩⟩ r.res⟩

/-- `Resources::get_resource::<R>`: look up by `TypeId`, `try_read`,
downcast to `R`; every failure is `None`. -/
def Resources.get_resource (r : Resources) (R : AssetType) : Option DynAsset :=
  match lookupAssoc R.tag r.res with
  | none => none
  | some c =>
    if c.lock.tryRead then
      if c.data.ty = R.tag then some c.data else none
    else none

/-! ### The `BinarySerializer` codec (`crates/assets/src/serializer.rs`)

The external codecs — `bincode` (de)serialization and the `lz4`
streaming (de)compressor — are dependencies, not repository code, so
they enter the model as function parameters; the embedded definitions
capture exactly the branching of `BinarySerializer::save` / `load` on
the configured compression level. Byte streams are `List Nat`. -/

/-- `BinarySerializer(pub Option<CompressionLevel>)`. -/
structure BinarySerializer where
  compression : Option Nat
deriving DecidableEq

/-- `BinarySerializer::save`: `bincode::serialize` the value; if a
compression level is configured, pass the bytes through the `lz4`
encoder built at that level, else write them unchanged. The returned
bytes are the file's contents. -/
def BinarySerializer.save (bs : BinarySerializer)
    (ser : α → Except String (List Nat))
    (compress : Nat → List Nat → List Nat) (v : α) :
    Except String (List Nat) :=
  match ser v with
  | .error e => .error e
  | .ok encoded =>
    match bs.compression with
    | some level => .ok (compress level encoded)
    | none => .ok encoded

/-- `BinarySerializer::load`: if a compression level is configured,
read the file through the `lz4` decoder, else read it raw; then
`bincode::deserialize` the buffer. -/
def BinarySerializer.load (bs : BinarySerializer)
    (de : List Nat → Except String α)
    (decompress : List Nat → Except String (List Nat))
    (file : List Nat) : Except String α :=
  match bs.compression with
  | some _ =>
    match decompress file with
    | .error e => .error e
    | .ok buffer => de buffer
  | none => de file

/-! ### Archive loading (`impl_save_load!::load` in
`crates/assets/src/save_load.rs`)

The `tar` iteration is modelled as a list of already-decompressed
entries; the `ron` deserializers for the two payloads and the
`ron::Deserializer::from_bytes` constructor are parameters. The
outcome type records panics: the source's `load` ends in
`world.unwrap()` / `asset_manager.unwrap()`, which panic when the
corresponding entry never appeared. -/

/-- One entry of the decompressed tar stream. -/
structure TarEntry where
  path : String
  isRegular : Bool
  bytes : List Nat
deriving DecidableEq

/-- Result of a load: a value, an error returned as `Result`, or a
panic. -/
inductive LoadOutcome (W A : Type) where
  | ok (w : W) (a : A)
  | err (e : AssetError)
  | panicked

/-- The body of the per-entry loop of `load`: build a `ron`
deserializer from the entry's bytes (its failure propagates with `?`),
then, for a regular entry, dispatch on the path — `world.ron` and
`assets.ron` feed their deserializers, every other name falls to the
`_ => {}` arm and is skipped. -/
def loadStep (fromBytes : List Nat → Except String Unit)
    (deW : List Nat → Except String W) (deA : List Nat → Except String A)
    (st : Option W × Option A) (e : TarEntry) :
    Except AssetError (Option W × Option A) :=
  match fromBytes e.bytes with
  | .error msg => .error (.RonError msg)
  | .ok _ =>
    if e.isRegular then
      match e.path with
      | "world.ron" =>
        match deW e.bytes with
        | .error msg => .error (.RonError msg)
        | .ok w => .ok (some w, st.2)
      | "assets.ron" =>
        match deA e.bytes with
        | .error msg => .error (.RonError msg)
        | .ok a => .ok (st.1, some a)
      | _ => .ok st
    else .ok st

/-- The entry loop followed by the final
`Ok((world.unwrap(), asset_manager.unwrap()))`: if either option is
still `None` when the entries are exhausted, the `unwrap` panics. -/
def loadGo (fromBytes : List Nat → Except String Unit)
    (deW : List Nat → Except String W) (deA : List Nat → Except String A)
    (st : Option W × Option A) : List TarEntry → LoadOutcome W A
  | [] =>
    match st with
    | (some w, some a) => .ok w a
    | _ => .panicked
  | e :: rest =>
    match loadStep fromBytes deW deA st e with
    | .error er => .err er
    | .ok st2 => loadGo fromBytes deW deA st2 rest

/-- `load`: iterate the archive's entries and finish with the two
unwraps. -/
def loadArchive (fromBytes : List Nat → Except String Unit)
    (deW : List Nat → Except String W) (deA : List Nat → Except String A)
    (entries : List TarEntry) : LoadOutcome W A :=
  loadGo fromBytes deW deA (none, none) entries

/-! ### Basic lemmas about the slot map -/

theorem findVacant_spec :
    ∀ (l : List Slot) (i : Nat) (s : Slot), findVacant l = some (i, s) →
      l[i]? = some s ∧ s.cell = none := by
  intro l
  induction l with
  | nil => intro i s hfv; simp [findVacant] at hfv
  | cons a rest ih =>
    intro i s hfv
    by_cases ha : a.cell.isNone
    · rw [findVacant, if_pos ha] at hfv
      cases hfv
      exact ⟨by simp, Option.isNone_iff_eq_none.mp ha⟩
    · rw [findVacant, if_neg ha] at hfv
      rcases Option.map_eq_some'.mp hfv with ⟨p, hp, hps⟩
      obtain ⟨j, s2⟩ := p
      cases hps
      simpa using ih j s2 hp

theorem insert_post (m : AssetManager) (a : DynAsset) :
    ((m.insert a).1).slots[(m.insert a).2.idx]? =
      some ⟨(m.insert a).2.version, some (freshCell a)⟩ := by
  cases hfv : findVacant m.slots with
  | none =>
    simp only [AssetManager.insert, hfv]
    exact List.getElem?_concat_length m.slots ⟨1, some (freshCell a)⟩
  | some p =>
    obtain ⟨hp, _⟩ := findVacant_spec m.slots p.1 p.2 hfv
    have hlt : p.1 < m.slots.length := (List.getElem?_eq_some_iff.mp hp).1
    simp only [AssetManager.insert, hfv]
    exact List.getElem?_set_eq_of_lt _ (by simpa using hlt)

theorem slotGet_some_elim {m : AssetManager} {h : AssetHandle} {c : Cell}
    (hg : m.slotGet h = some c) :
    ∃ s, m.slots[h.idx]? = some s ∧ s.version = h.version ∧
      s.cell = some c := by
  cases hs : m.slots[h.idx]? with
  | none =>
    simp only [AssetManager.slotGet, hs] at hg
    exact absurd hg (by simp)
  | some s =>
    simp only [AssetManager.slotGet, hs] at hg
    by_cases hv : s.version = h.version
    · rw [if_pos hv] at hg; exact ⟨s, rfl, hv, hg⟩
    · rw [if_neg hv] at hg; exact absurd hg (by simp)

theorem slotGet_of_version_ne {m : AssetManager} {h : AssetHandle} {s : Slot}
    (hs : m.slots[h.idx]? = some s) (hv : s.version ≠ h.version) :
    m.slotGet h = none := by
  simp only [AssetManager.slotGet, hs]
  rw [if_neg hv]

theorem gets_invalid_of_slotGet_none {m : AssetManager} {h : AssetHandle}
    (hg : m.slotGet h = none) (B : AssetType) :
    m.get B h = .error .InvalidHandle ∧
      m.get_mut B h = .error .InvalidHandle ∧
      m.get_dynamic h = .error .InvalidHandle := by
  unfold AssetManager.get AssetManager.get_mut AssetManager.get_dynamic
  rw [hg]
  exact ⟨rfl, rfl, rfl⟩

/-! ### Concrete sample states used by the witnesses and
counterexamples -/

/-- The model of a Rust `u32` as an asset type. -/
def tyU32 : AssetType := ⟨0, "u32"⟩

/-- The model of a Rust `String` as an asset type. -/
def tyString : AssetType := ⟨1, "alloc::string::String"⟩

/-- A manager holding exactly the value `42u32`. -/
def mgr42 : AssetManager := (AssetManager.new.insert ⟨0, 42⟩).1

/-- The handle returned for `42u32`. -/
def h42 : AssetHandle := (AssetManager.new.insert ⟨0, 42⟩).2

/-- A manager whose one cell holds `42u32` but has one extra `Arc`
strong reference outstanding, so exclusive ownership cannot be
proven. -/
def mgrShared : AssetManager :=
  ⟨[⟨1, some ⟨⟨0, false⟩, 1, ⟨0, 42⟩⟩⟩]⟩

/-- The (live) handle into `mgrShared`. -/
def hShared : AssetHandle := ⟨0, 1⟩

/-! ### C1: the `get` / `get_mut` failure contract -/

/-- C1: `get::<T>` fails with `InvalidHandle` when the handle does not
resolve to a live cell, else with `AssetBlocked` when the non-blocking
read-lock attempt fails (regardless of the stored type — the lock check
has priority over the type check), else with `WrongAssetType` carrying
`T`'s type name when the stored concrete type is not `T`, and otherwise
succeeds with a read guard on the stored value; `get_mut` satisfies the
same contract with the non-blocking write-lock attempt in place of the
read-lock attempt. -/
theorem get_and_get_mut_failure_contract
    (m : AssetManager) (A : AssetType) (h : AssetHandle) :
    (m.slotGet h = none →
      m.get A h = .error .InvalidHandle ∧
      m.get_mut A h = .error .InvalidHandle) ∧
    (∀ c, m.slotGet h = some c →
      (c.lock.tryRead = false → m.get A h = .error .AssetBlocked) ∧
      (c.lock.tryRead = true → c.data.ty ≠ A.tag →
        m.get A h = .error (.WrongAssetType A.name)) ∧
      (c.lock.tryRead = true → c.data.ty = A.tag →
        m.get A h = .ok c.data) ∧
      (c.lock.tryWrite = false → m.get_mut A h = .error .AssetBlocked) ∧
      (c.lock.tryWrite = true → c.data.ty ≠ A.tag →
        m.get_mut A h = .error (.WrongAssetType A.name)) ∧
      (c.lock.tryWrite = true → c.data.ty = A.tag →
        m.get_mut A h = .ok c.data)) := by
  constructor
  · intro hg
    exact ⟨(gets_invalid_of_slotGet_none hg A).1,
      (gets_invalid_of_slotGet_none hg A).2.1⟩
  · intro c hg
    unfold AssetManager.get AssetManager.get_mut
    rw [hg]
    refine ⟨fun h1 => ?_, fun h1 h2 => ?_, fun h1 h2 => ?_,
      fun h1 => ?_, fun h1 h2 => ?_, fun h1 h2 => ?_⟩
    · simp [h1]
    · simp [h1, h2]
    · simp [h1, h2]
    · simp [h1]
    · simp [h1, h2]
    · simp [h1, h2]

/-- Witness for C1 at concrete inputs: the empty manager rejects a
handle as invalid; on a live unlocked `u32` cell a `String` read
reports the wrong type with its name and a `u32` write succeeds. -/
theorem get_and_get_mut_failure_contract_witness :
    AssetManager.new.get tyU32 ⟨0, 1⟩ = .error .InvalidHandle ∧
    mgr42.get tyString h42 = .error (.WrongAssetType tyString.name) ∧
    mgr42.get_mut tyU32 h42 = .ok ⟨0, 42⟩ :=
  ⟨((get_and_get_mut_failure_contract AssetManager.new tyU32 ⟨0, 1⟩).1 rfl).1,
   ((get_and_get_mut_failure_contract mgr42 tyString h42).2
      (freshCell ⟨0, 42⟩) rfl).2.1 rfl (by decide),
   ((get_and_get_mut_failure_contract mgr42 tyU32 h42).2
      (freshCell ⟨0, 42⟩) rfl).2.2.2.2.2 rfl rfl⟩

/-! ### C5: the insert/get round trip -/

/-- C5: `insert` always succeeds (it is a total operation on every
store state) and returns a fresh handle on which an immediate `get` at
the inserted value's type succeeds, the guard dereferencing to a value
equal to the one inserted. -/
theorem insert_get_roundtrip (m : AssetManager) (ty v : Nat) (name : String) :
    ((m.insert ⟨ty, v⟩).1).get ⟨ty, name⟩ (m.insert ⟨ty, v⟩).2 =
      .ok ⟨ty, v⟩ := by
  have hget : ((m.insert ⟨ty, v⟩).1).slotGet (m.insert ⟨ty, v⟩).2 =
      some (freshCell ⟨ty, v⟩) := by
    unfold AssetManager.slotGet
    rw [insert_post m ⟨ty, v⟩]
    simp
  unfold AssetManager.get
  rw [hget]
  simp [freshCell, CellLock.tryRead]

/-! ### C10: the `get_dynamic` contract (operation modelled from the
spec) -/

/-- C10: `get_dynamic` behaves exactly like `get` with the type check
and downcast omitted — `InvalidHandle` for a handle that does not
resolve to a live cell, `AssetBlocked` when the non-blocking read-lock
attempt fails, otherwise a read guard on the stored dynamic object; a
`WrongAssetType` outcome is impossible. -/
theorem get_dynamic_contract (m : AssetManager) (h : AssetHandle) :
    (m.slotGet h = none → m.get_dynamic h = .error .InvalidHandle) ∧
    (∀ c, m.slotGet h = some c →
      (c.lock.tryRead = false → m.get_dynamic h = .error .AssetBlocked) ∧
      (c.lock.tryRead = true → m.get_dynamic h = .ok c.data)) ∧
    (∀ s, m.get_dynamic h ≠ .error (.WrongAssetType s)) := by
  refine ⟨fun hg => ?_, fun c hg => ⟨fun h1 => ?_, fun h1 => ?_⟩,
    fun s => ?_⟩
  · exact (gets_invalid_of_slotGet_none hg tyU32).2.2
  · unfold AssetManager.get_dynamic; rw [hg]; simp [h1]
  · unfold AssetManager.get_dynamic; rw [hg]; simp [h1]
  · cases hg : m.slotGet h with
    | none => unfold AssetManager.get_dynamic; rw [hg]; simp
    | some c =>
      unfold AssetManager.get_dynamic; rw [hg]
      by_cases h1 : c.lock.tryRead <;> simp [h1]

/-- Witness for C10 at concrete inputs. -/
theorem get_dynamic_contract_witness :
    AssetManager.new.get_dynamic ⟨0, 1⟩ = .error .InvalidHandle ∧
    mgr42.get_dynamic h42 = .ok ⟨0, 42⟩ :=
  ⟨(get_dynamic_contract AssetManager.new ⟨0, 1⟩).1 rfl,
   ((get_dynamic_contract mgr42 h42).2.1 (freshCell ⟨0, 42⟩) rfl).2 rfl⟩

/-! ### C2: duplicate resource registration -/

theorem lookupAssoc_insertAssoc (k : Nat) (v : ResCell) :
    ∀ l : List (Nat × ResCell), lookupAssoc k (insertAssoc k v l) = some v := by
  intro l
  induction l with
  | nil => simp [insertAssoc, lookupAssoc]
  | cons p rest ih =>
    obtain ⟨k2, v2⟩ := p
    by_cases hk : k2 = k
    · simp [insertAssoc, hk, lookupAssoc]
    · simp [insertAssoc, hk, lookupAssoc, ih]

/-- C2 counterexample: registering `Config` twice, the second
`add_resource` silently overwrites the first — afterwards
`get_resource` returns the second-registered value and the
first-registered instance is no longer retrievable, contrary to the
claim that the conflict is reported and the operation skipped. -/
theorem add_resource_second_registration_overwrites :
    ((Resources.new.add_resource ⟨5, "Config"⟩ 1).add_resource
        ⟨5, "Config"⟩ 2).get_resource ⟨5, "Config"⟩ = some ⟨5, 2⟩ ∧
    ((Resources.new.add_resource ⟨5, "Config"⟩ 1).add_resource
        ⟨5, "Config"⟩ 2).get_resource ⟨5, "Config"⟩ ≠ some ⟨5, 1⟩ :=
  ⟨rfl, by decide⟩

/-- C2 amended: `add_resource` on an already-registered type is a plain
`HashMap::insert`: it silently replaces the stored instance — nothing
is reported and the operation is not skipped (it is also not a crash) —
so `get_resource` afterwards retrieves the last-registered instance. -/
theorem add_resource_last_registration_wins
    (r : Resources) (R : AssetType) (v1 v2 : Nat) :
    ((r.add_resource R v1).add_resource R v2).get_resource R =
      some ⟨R.tag, v2⟩ := by
  unfold Resources.add_resource Resources.get_resource
  rw [lookupAssoc_insertAssoc]
  simp [CellLock.tryRead]


/-! ### Lemmas about `remove` -/

theorem slotRemove_of_slotGet_some {m : AssetManager} {h : AssetHandle}
    {c : Cell} (hg : m.slotGet h = some c) :
    m.slotRemove h =
      some (c, ⟨m.slots.set h.idx ⟨h.version + 1, none⟩⟩) := by
  obtain ⟨s, hs, hv, hc⟩ := slotGet_some_elim hg
  simp only [AssetManager.slotRemove, hs, if_pos hv, hc, Option.map_some']
  rw [hv]

theorem slotRemove_none_of_slotGet_none {m : AssetManager} {h : AssetHandle}
    (hg : m.slotGet h = none) : m.slotRemove h = none := by
  cases hs : m.slots[h.idx]? with
  | none => simp [AssetManager.slotRemove, hs]
  | some s =>
    simp only [AssetManager.slotGet, hs] at hg
    by_cases hv : s.version = h.version
    · rw [if_pos hv] at hg
      simp [AssetManager.slotRemove, hs, hv, hg]
    · simp [AssetManager.slotRemove, hs, hv]

theorem remove_mgr_of_live {m : AssetManager} {h : AssetHandle} {c : Cell}
    (hg : m.slotGet h = some c) (A : AssetType) :
    (m.remove A h).mgr = ⟨m.slots.set h.idx ⟨h.version + 1, none⟩⟩ := by
  simp only [AssetManager.remove, slotRemove_of_slotGet_some hg]
  split_ifs <;> rfl

theorem slotGet_after_remove_live {m : AssetManager} {h : AssetHandle}
    {c : Cell} (hg : m.slotGet h = some c) (A : AssetType) :
    (m.remove A h).mgr.slotGet h = none := by
  obtain ⟨s, hs, hv, hc⟩ := slotGet_some_elim hg
  have hlt : h.idx < m.slots.length := (List.getElem?_eq_some_iff.mp hs).1
  rw [remove_mgr_of_live hg A]
  apply slotGet_of_version_ne (s := ⟨h.version + 1, none⟩)
  · exact List.getElem?_set_eq_of_lt _ (by simpa using hlt)
  · simp

/-! ### C3: the `remove` contract -/

/-- C3 counterexample: on a store whose single live cell carries an
extra reference, `remove` returns `None` — but the store is changed and
the entry is gone: the same handle that read `Ok(42)` before the failed
`remove` gets `InvalidHandle` after it, refuting the claim that such a
`remove` leaves the entry present and retrievable. -/
theorem remove_failure_evicts_entry_cex :
    (mgrShared.remove tyU32 hShared).result = none ∧
    (mgrShared.remove tyU32 hShared).mgr ≠ mgrShared ∧
    mgrShared.get tyU32 hShared = .ok ⟨0, 42⟩ ∧
    (mgrShared.remove tyU32 hShared).mgr.get tyU32 hShared =
      .error .InvalidHandle :=
  ⟨rfl, by decide, rfl, rfl⟩

/-- C3 amended: `remove::<T>(h)` returns `Some(v)` (detaching ownership
of the stored value) iff `h` resolves to a live cell with no other
outstanding reference whose stored concrete type is `T`, and returns
`None` in every other case — but a `None` caused by an extra reference
or a type mismatch does not leave the store unchanged: the entry has
already been evicted from the map, so the handle is dead afterwards
(only a `None` on an already-invalid handle leaves the store as it
was). -/
theorem remove_contract_with_eviction
    (m : AssetManager) (A B : AssetType) (h : AssetHandle) :
    (m.slotGet h = none →
      (m.remove A h).result = none ∧ (m.remove A h).mgr = m) ∧
    (∀ c, m.slotGet h = some c →
      ((m.remove A h).result = some c.data ↔
        c.extraRefs = 0 ∧ c.data.ty = A.tag) ∧
      (c.extraRefs ≠ 0 ∨ c.data.ty ≠ A.tag →
        (m.remove A h).result = none) ∧
      (m.remove A h).mgr.slotGet h = none ∧
      (m.remove A h).mgr.get B h = .error .InvalidHandle) := by
  constructor
  · intro hg
    simp [AssetManager.remove, slotRemove_none_of_slotGet_none hg]
  · intro c hg
    have hrem := slotRemove_of_slotGet_some hg
    have hmgr := slotGet_after_remove_live hg A
    refine ⟨?_, ?_, hmgr, (gets_invalid_of_slotGet_none hmgr B).1⟩
    · simp only [AssetManager.remove, hrem]
      by_cases h0 : c.extraRefs = 0
      · by_cases hty : c.data.ty = A.tag
        · simp [h0, hty]
        · simp [h0, hty]
      · simp [h0]
    · intro hor
      simp only [AssetManager.remove, hrem]
      rcases hor with h0 | hty
      · simp [h0]
      · by_cases h0 : c.extraRefs = 0
        · simp [h0, hty]
        · simp [h0]

/-- Witness for C3 (amended) at concrete inputs: the shared cell's
`remove` fails yet the handle is invalid afterwards, and on the
uniquely-owned store `remove` succeeds with the stored value. -/
theorem remove_contract_with_eviction_witness :
    (mgrShared.remove tyU32 hShared).result = none ∧
    (mgrShared.remove tyU32 hShared).mgr.get tyU32 hShared =
      .error .InvalidHandle ∧
    (mgr42.remove tyU32 h42).result = some ⟨0, 42⟩ :=
  ⟨((remove_contract_with_eviction mgrShared tyU32 tyU32 hShared).2
      ⟨⟨0, false⟩, 1, ⟨0, 42⟩⟩ rfl).2.1 (Or.inl (by decide)),
   ((remove_contract_with_eviction mgrShared tyU32 tyU32 hShared).2
      ⟨⟨0, false⟩, 1, ⟨0, 42⟩⟩ rfl).2.2.2,
   ((remove_contract_with_eviction mgr42 tyU32 tyU32 h42).2
      (freshCell ⟨0, 42⟩) rfl).1.mpr ⟨rfl, rfl⟩⟩

/-! ### C9: the zeroed-placeholder swap -/

/-- C9 counterexample: on the store whose cell has an extra reference —
precisely the case where exclusive ownership cannot be proven — `remove`
constructs no zeroed placeholder and swaps nothing out from behind the
shared pointer: no box is dropped by `remove` and the result is `None`,
refuting the claim that the zeroed swap is what happens when exclusivity
cannot be established. -/
theorem remove_no_swap_when_shared_cex :
    (mgrShared.remove tyU32 hShared).droppedBox = none ∧
    (mgrShared.remove tyU32 hShared).result = none :=
  ⟨rfl, rfl⟩

/-- C9 amended: `remove` extracts the stored object by constructing a
`mem::zeroed()` placeholder and swapping it with the boxed value only
on the path where exclusive ownership HAS been proven
(`Arc::into_inner` succeeded) and the downcast matched; there a
zero-bit value of the stored type is observably produced inside the
detached box. When exclusive ownership cannot be proven, no placeholder
is fabricated and `remove` simply returns `None`. -/
theorem remove_zeroed_swap_contract
    (m : AssetManager) (A : AssetType) (h : AssetHandle) (c : Cell)
    (hg : m.slotGet h = some c) :
    (c.extraRefs = 0 → c.data.ty = A.tag →
      (m.remove A h).result = some c.data ∧
      (m.remove A h).droppedBox = some ⟨A.tag, 0⟩) ∧
    (c.extraRefs ≠ 0 →
      (m.remove A h).result = none ∧
      (m.remove A h).droppedBox = none) := by
  have hrem := slotRemove_of_slotGet_some hg
  constructor
  · intro h0 hty
    simp [AssetManager.remove, hrem, h0, hty]
  · intro h0
    simp [AssetManager.remove, hrem, h0]

/-- Witness for C9 (amended) at concrete inputs. -/
theorem remove_zeroed_swap_contract_witness :
    (mgr42.remove tyU32 h42).result = some ⟨0, 42⟩ ∧
    (mgr42.remove tyU32 h42).droppedBox = some ⟨tyU32.tag, 0⟩ ∧
    (mgrShared.remove tyU32 hShared).droppedBox = none :=
  ⟨((remove_zeroed_swap_contract mgr42 tyU32 h42 (freshCell ⟨0, 42⟩)
      rfl).1 rfl rfl).1,
   ((remove_zeroed_swap_contract mgr42 tyU32 h42 (freshCell ⟨0, 42⟩)
      rfl).1 rfl rfl).2,
   ((remove_zeroed_swap_contract mgrShared tyU32 hShared
      ⟨⟨0, false⟩, 1, ⟨0, 42⟩⟩ rfl).2 (by decide)).2⟩

/-! ### Versions only grow: monotonicity over operation sequences -/

theorem remove_mgr_of_dead {m : AssetManager} {h : AssetHandle}
    (hg : m.slotGet h = none) (A : AssetType) :
    (m.remove A h).mgr = m := by
  simp [AssetManager.remove, slotRemove_none_of_slotGet_none hg]

theorem applyOp_slot_mono (m : AssetManager) (op : Op) (i : Nat) (s : Slot)
    (hs : m.slots[i]? = some s) :
    ∃ s2, (m.applyOp op).slots[i]? = some s2 ∧
      (s2 = s ∨ s.version < s2.version) := by
  have hlt : i < m.slots.length := (List.getElem?_eq_some_iff.mp hs).1
  cases op with
  | ins a =>
    cases hfv : findVacant m.slots with
    | none =>
      refine ⟨s, ?_, Or.inl rfl⟩
      simp only [AssetManager.applyOp, AssetManager.insert, hfv]
      rw [List.getElem?_append_left hlt]
      exact hs
    | some p =>
      obtain ⟨hp, hcell⟩ := findVacant_spec m.slots p.1 p.2 hfv
      by_cases hi : p.1 = i
      · subst hi
        have hsp : p.2 = s := by
          rw [hp] at hs
          exact Option.some.inj hs
        refine ⟨⟨p.2.version + 1, some (freshCell a)⟩, ?_, Or.inr ?_⟩
        · simp only [AssetManager.applyOp, AssetManager.insert, hfv]
          exact List.getElem?_set_eq_of_lt _ (by simpa using hlt)
        · rw [hsp]
          exact Nat.lt_succ_self s.version
      · refine ⟨s, ?_, Or.inl rfl⟩
        simp only [AssetManager.applyOp, AssetManager.insert, hfv]
        rw [List.getElem?_set_ne hi]
        exact hs
  | rem A h =>
    cases hg : m.slotGet h with
    | none =>
      refine ⟨s, ?_, Or.inl rfl⟩
      simp only [AssetManager.applyOp]
      rw [remove_mgr_of_dead hg A]
      exact hs
    | some c =>
      obtain ⟨s0, hs0, hv0, hc0⟩ := slotGet_some_elim hg
      by_cases hi : h.idx = i
      · subst hi
        have hss : s0 = s := by
          rw [hs0] at hs
          exact Option.some.inj hs
        refine ⟨⟨h.version + 1, none⟩, ?_, Or.inr ?_⟩
        · simp only [AssetManager.applyOp]
          rw [remove_mgr_of_live hg A]
          exact List.getElem?_set_eq_of_lt _ (by simpa using hlt)
        · rw [← hss, hv0]
          exact Nat.lt_succ_self h.version
      · refine ⟨s, ?_, Or.inl rfl⟩
        simp only [AssetManager.applyOp]
        rw [remove_mgr_of_live hg A]
        rw [List.getElem?_set_ne hi]
        exact hs

theorem run_slot_mono :
    ∀ (ops : List Op) (m : AssetManager) (i : Nat) (s : Slot),
      m.slots[i]? = some s →
      ∃ s2, (m.run ops).slots[i]? = some s2 ∧
        (s2 = s ∨ s.version < s2.version) := by
  intro ops
  induction ops with
  | nil => intro m i s hs; exact ⟨s, hs, Or.inl rfl⟩
  | cons op rest ih =>
    intro m i s hs
    obtain ⟨s1, hs1, hc1⟩ := applyOp_slot_mono m op i s hs
    obtain ⟨s2, hs2, hc2⟩ := ih (m.applyOp op) i s1 hs1
    refine ⟨s2, hs2, ?_⟩
    rcases hc1 with rfl | h1
    · exact hc2
    · rcases hc2 with rfl | h2
      · exact Or.inr h1
      · exact Or.inr (h1.trans h2)

/-! ### C4: a removed handle is invalid forever -/

/-- C4: once `remove(h)` has been called on a live handle, every
subsequent `get`, `get_mut` or `get_dynamic` on `h` — after any further
sequence of inserts and removes — returns `InvalidHandle`: the handle
never resolves to any stored object again. (`get_dynamic` is the
operation modelled from the spec.) -/
theorem invalid_forever_after_remove
    (m : AssetManager) (A : AssetType) (h : AssetHandle) (c : Cell)
    (hg : m.slotGet h = some c) (B : AssetType) (ops : List Op) :
    ((m.remove A h).mgr.run ops).get B h = .error .InvalidHandle ∧
    ((m.remove A h).mgr.run ops).get_mut B h = .error .InvalidHandle ∧
    ((m.remove A h).mgr.run ops).get_dynamic h = .error .InvalidHandle := by
  obtain ⟨s, hs, hv, hc⟩ := slotGet_some_elim hg
  have hlt : h.idx < m.slots.length := (List.getElem?_eq_some_iff.mp hs).1
  have hpost : ((m.remove A h).mgr).slots[h.idx]? =
      some ⟨h.version + 1, none⟩ := by
    rw [remove_mgr_of_live hg A]
    exact List.getElem?_set_eq_of_lt _ (by simpa using hlt)
  obtain ⟨s2, hs2, hc2⟩ := run_slot_mono ops ((m.remove A h).mgr) h.idx _ hpost
  have hvne : s2.version ≠ h.version := by
    rcases hc2 with rfl | hlt2
    · simp
    · have : h.version + 1 < s2.version := by simpa using hlt2
      omega
  exact gets_invalid_of_slotGet_none (slotGet_of_version_ne hs2 hvne) B

/-- Witness for C4 at concrete inputs: after removing `42u32`, even
when a later insert reuses the slot, the old handle stays invalid. -/
theorem invalid_forever_after_remove_witness :
    ((mgr42.remove tyU32 h42).mgr.run [.ins ⟨0, 7⟩]).get tyU32 h42 =
      .error .InvalidHandle ∧
    ((mgr42.remove tyU32 h42).mgr.run [.ins ⟨0, 7⟩]).get_dynamic h42 =
      .error .InvalidHandle :=
  ⟨(invalid_forever_after_remove mgr42 tyU32 h42 (freshCell ⟨0, 42⟩) rfl
      tyU32 [.ins ⟨0, 7⟩]).1,
   (invalid_forever_after_remove mgr42 tyU32 h42 (freshCell ⟨0, 42⟩) rfl
      tyU32 [.ins ⟨0, 7⟩]).2.2⟩

/-! ### C6: generation freshness on slot reuse -/

/-- C6: a handle `h1` returned by `insert` never aliases a later
insertion: whenever, after any further sequence of operations (in
particular one that removed `h1`), another `insert` hands out a handle
with the same slot index, that handle carries a strictly different
generation, and looking `h1` up in the resulting store still fails with
`InvalidHandle` rather than returning the newly inserted object. -/
theorem removed_handle_never_aliases_reuse
    (m m1 : AssetManager) (h1 : AssetHandle) (a1 a2 : DynAsset)
    (A : AssetType) (ops : List Op)
    (hins : m.insert a1 = (m1, h1))
    (hidx : ((m1.run ops).insert a2).2.idx = h1.idx) :
    ((m1.run ops).insert a2).2.version ≠ h1.version ∧
    ((m1.run ops).insert a2).1.get A h1 = .error .InvalidHandle := by
  have hpost := insert_post m a1
  rw [hins] at hpost
  obtain ⟨s2, hs2, hc2⟩ := run_slot_mono ops m1 h1.idx _ hpost
  cases hfv : findVacant (m1.run ops).slots with
  | none =>
    exfalso
    have hlen : h1.idx < (m1.run ops).slots.length :=
      (List.getElem?_eq_some_iff.mp hs2).1
    simp only [AssetManager.insert, hfv] at hidx
    omega
  | some p =>
    have hlt : h1.idx < (m1.run ops).slots.length :=
      (List.getElem?_eq_some_iff.mp hs2).1
    obtain ⟨hp, hcell⟩ := findVacant_spec _ p.1 p.2 hfv
    simp only [AssetManager.insert, hfv] at hidx ⊢
    rw [hidx, hs2] at hp
    have hps : p.2 = s2 := (Option.some.inj hp).symm
    rw [hps] at hcell
    have hver : h1.version < s2.version := by
      rcases hc2 with rfl | hv
      · exact absurd hcell (by simp)
      · simpa using hv
    constructor
    · rw [hps]
      omega
    · refine (gets_invalid_of_slotGet_none ?_ A).1
      refine slotGet_of_version_ne
        (s := ⟨p.2.version + 1, some (freshCell a2)⟩) ?_ ?_
      · rw [hidx]
        exact List.getElem?_set_eq_of_lt _ (by simpa using hlt)
      · show p.2.version + 1 ≠ h1.version
        rw [hps]
        omega

/-- Witness for C6 at concrete inputs: insert `5u32` (handle
generation 1 at slot 0), remove it, insert `9u32` — the new handle is
slot 0 at generation 3, and the old handle still misses. -/
theorem removed_handle_never_aliases_reuse_witness :
    ((AssetManager.mk [⟨1, some (freshCell ⟨0, 5⟩)⟩]).run
        [.rem tyU32 ⟨0, 1⟩]).insert ⟨0, 9⟩ |>.2.version ≠ 1 ∧
    (((AssetManager.mk [⟨1, some (freshCell ⟨0, 5⟩)⟩]).run
        [.rem tyU32 ⟨0, 1⟩]).insert ⟨0, 9⟩ |>.1.get tyU32 ⟨0, 1⟩) =
      .error .InvalidHandle := by
  have := removed_handle_never_aliases_reuse AssetManager.new
    (AssetManager.mk [⟨1, some (freshCell ⟨0, 5⟩)⟩]) ⟨0, 1⟩
    ⟨0, 5⟩ ⟨0, 9⟩ tyU32 [.rem tyU32 ⟨0, 1⟩] rfl rfl
  exact this

/-! ### C7: archive load and the missing-required-entry path -/

/-- A `ron::Deserializer::from_bytes` model that always succeeds. -/
def fb0 : List Nat → Except String Unit := fun _ => .ok ()

/-- A trivial world deserializer standing for `deserialize_world`. -/
def deW0 : List Nat → Except String Nat := fun _ => .ok 0

/-- A trivial asset-manager deserializer standing for
`AssetManager::deserialize`. -/
def deA0 : List Nat → Except String Nat := fun _ => .ok 0

/-- C7 (demonstrating the code bug): on an archive whose entries
contain no `world.ron` / `assets.ron` — here a single regular entry
with the unrecognized name `extra.bin`, which the dispatch correctly
skips without failing — the final `world.unwrap()` /
`asset_manager.unwrap()` of `load` panics instead of returning the
fatal load error as a `Result`. -/
theorem load_panics_when_required_entry_missing :
    loadArchive fb0 deW0 deA0 [⟨"extra.bin", true, []⟩] =
      (.panicked : LoadOutcome Nat Nat) :=
  rfl

/-! ### C8: the `BinarySerializer` round trip -/

/-- `save` to a file followed by `load` from it through the same
serializer configuration. -/
def saveThenLoad (bs : BinarySerializer)
    (ser : α → Except String (List Nat)) (de : List Nat → Except String α)
    (compress : Nat → List Nat → List Nat)
    (decompress : List Nat → Except String (List Nat)) (v : α) :
    Except String α :=
  match bs.save ser compress v with
  | .error e => .error e
  | .ok file => bs.load de decompress file

/-- C8: for every serializable value and every `BinarySerializer`
configuration, provided the binary codec inverts on the value and the
streaming decompressor inverts the compressor, saving then loading
returns an equal value: with a compression level configured both
directions pass the bytes through the compressor/decompressor, with
none configured the bytes pass through unchanged, so the compression
wrapper never alters the round-trip result. -/
theorem binary_serializer_roundtrip (α : Type)
    (ser : α → Except String (List Nat)) (de : List Nat → Except String α)
    (compress : Nat → List Nat → List Nat)
    (decompress : List Nat → Except String (List Nat))
    (bs : BinarySerializer) (v : α) (bytes : List Nat)
    (hser : ser v = .ok bytes) (hde : de bytes = .ok v)
    (hcd : ∀ l b, decompress (compress l b) = .ok b) :
    saveThenLoad bs ser de compress decompress v = .ok v ∧
    (bs.compression = none → bs.save ser compress v = .ok bytes) ∧
    (∀ l, bs.compression = some l →
      bs.save ser compress v = .ok (compress l bytes)) := by
  cases hbs : bs.compression with
  | none =>
    refine ⟨?_, fun _ => ?_, fun l hl => ?_⟩
    · simp [saveThenLoad, BinarySerializer.save, BinarySerializer.load,
        hser, hbs, hde]
    · simp [BinarySerializer.save, hser, hbs]
    · exact absurd hl (by simp)
  | some lev =>
    refine ⟨?_, fun hn => ?_, fun l hl => ?_⟩
    · simp [saveThenLoad, BinarySerializer.save, BinarySerializer.load,
        hser, hbs, hcd, hde]
    · exact absurd hn (by simp)
    · have hll := Option.some.inj hl
      subst hll
      simp [BinarySerializer.save, hser, hbs]

/-- Toy binary codec for the round-trip witness. -/
def serW : Nat → Except String (List Nat) := fun n => .ok [n]

/-- Inverse of `serW`. -/
def deWit : List Nat → Except String Nat := fun l =>
  match l with
  | [n] => .ok n
  | _ => .error "decode"

/-- Toy streaming compressor for the witness. -/
def compW : Nat → List Nat → List Nat := fun l b => l :: b

/-- Inverse of `compW`. -/
def decompW : List Nat → Except String (List Nat) := fun l =>
  match l with
  | _ :: b => .ok b
  | [] => .error "eof"

/-- Witness for C8 at a concrete value, once with a compression level
configured and once without. -/
theorem binary_serializer_roundtrip_witness :
    saveThenLoad ⟨some 4⟩ serW deWit compW decompW 42 = .ok 42 ∧
    saveThenLoad ⟨none⟩ serW deWit compW decompW 42 = .ok 42 :=
  ⟨(binary_serializer_roundtrip Nat serW deWit compW decompW ⟨some 4⟩ 42
      [42] rfl rfl (fun _ _ => rfl)).1,
   (binary_serializer_roundtrip Nat serW deWit compW decompW ⟨none⟩ 42
      [42] rfl rfl (fun _ _ => rfl)).1⟩
